import Mathlib

/-!
Verification of the retrieval-and-routing core of the
Multi-Document-RAG-Search-Engine repository.

The Python sources (src/ingestion.py, src/logic.py, src/models.py) are
shallowly embedded below: strings are lists of characters, external
collaborators (the embedding model, FAISS, the Tavily provider, the router
LLM, the text splitter) are function parameters, Python exceptions are
modelled with Except, and the durable index store is a map from path to
saved index.
-/

namespace RagSearch

/-- The set of code points CPython treats as whitespace when matching a
regex character class against a str, and when stripping a str: the ASCII
whitespace characters, the C1 and separator controls, and the Unicode
space characters. Used by the two whitespace steps of clean_text. -/
def pyIsSpace (c : Char) : Bool :=
  let n := c.toNat
  (9 ≤ n && n ≤ 13) || n == 32 || (28 ≤ n && n ≤ 31) || n == 133 || n == 160 ||
    n == 0x1680 || (0x2000 ≤ n && n ≤ 0x200A) || n == 0x2028 || n == 0x2029 ||
    n == 0x202F || n == 0x205F || n == 0x3000

/-- The character class of the second substitution in clean_text: anything
outside the byte range 0x00-0x7F. -/
def isNonAscii (c : Char) : Bool := 127 < c.toNat

/-- One re.sub pass with a pattern of the form (character class)+ and the
replacement a single space: each maximal run of characters satisfying p is
replaced by one space. The Boolean argument records whether the previous
character belonged to a run. -/
def collapseRunsAux (p : Char → Bool) : Bool → List Char → List Char
  | _, [] => []
  | inRun, c :: cs =>
    if p c then
      if inRun then collapseRunsAux p true cs
      else ' ' :: collapseRunsAux p true cs
    else c :: collapseRunsAux p false cs

/-- re.sub of a plus pattern over the class p, replacing each run with one
space. -/
def collapseRuns (p : Char → Bool) (l : List Char) : List Char :=
  collapseRunsAux p false l

/-- Python str.strip with no argument: remove whitespace from both ends. -/
def pyStrip (l : List Char) : List Char :=
  ((l.dropWhile pyIsSpace).reverse.dropWhile pyIsSpace).reverse

/-- src/ingestion.py clean_text: collapse every whitespace run to one
space, then replace every run of non-ASCII characters with one space, then
strip leading and trailing whitespace. -/
def clean_text (l : List Char) : List Char :=
  pyStrip (collapseRuns isNonAscii (collapseRuns pyIsSpace l))

/-- Every character of the list is in the ASCII range. -/
def allAscii (l : List Char) : Bool := l.all (fun c => !isNonAscii c)

/-- Every character of the list satisfying p is the plain space
character. -/
def pOnlySpace (p : Char → Bool) (l : List Char) : Bool :=
  l.all (fun c => !p c || c == ' ')

/-- No two adjacent characters of the list both satisfy p. -/
def NoAdj (p : Char → Bool) (l : List Char) : Prop :=
  List.Chain' (fun a b => p a = false ∨ p b = false) l

end RagSearch

namespace RagSearch

/-- src/models.py Document: the fields chunk_documents reads. -/
structure Document where
  source_id : String
  source_type : String
  title : String
  content : String

/-- The metadata mapping written for each chunk by chunk_documents. -/
structure ChunkMeta where
  chunk_index : Nat
  title : String
  source_type : String

/-- src/models.py DocumentChunk as populated by chunk_documents. -/
structure DocumentChunk where
  parent_id : String
  source_type : String
  title : String
  content : String
  metadata : ChunkMeta

/-- The chunks chunk_documents builds for one document: the pieces returned
by the text splitter, enumerated with their position inside the document.
The splitter (langchain RecursiveCharacterTextSplitter.split_text, an
external collaborator) is the parameter split_text. -/
def chunksFor (split_text : String → List String) (doc : Document) :
    List DocumentChunk :=
  (split_text doc.content).enum.map (fun p =>
    { parent_id := doc.source_id
      source_type := doc.source_type
      title := doc.title
      content := p.2
      metadata :=
        { chunk_index := p.1, title := doc.title, source_type := doc.source_type } })

/-- src/ingestion.py chunk_documents: the per-document chunk lists,
concatenated in document order. -/
def chunk_documents (split_text : String → List String)
    (documents : List Document) : List DocumentChunk :=
  documents.flatMap (chunksFor split_text)

/-- src/ingestion.py VectorEngine process state: the in-memory vector store
(None before any build or load) and the save path fixed by the
constructor. The store payload is abstract; it is produced by the FAISS
collaborator. -/
structure VectorEngine (Store : Type) where
  vector_store : Option Store
  save_path : String

/-- The VectorEngine constructor: no store in memory, save path
"faiss_index". -/
def VectorEngine.start (Store : Type) : VectorEngine Store :=
  { vector_store := none, save_path := "faiss_index" }

/-- src/ingestion.py VectorEngine.index_documents. FAISS.from_documents is
the parameter build; the durable store is a map from path to saved index.
On an empty chunk list the source returns None at once; otherwise it
replaces the in-memory store and saves it at save_path. The result is the
Python return value, the engine after the call, and the durable store
after the call. -/
def index_documents {Store : Type} (build : List DocumentChunk → Store)
    (e : VectorEngine Store) (disk : String → Option Store)
    (chunks : List DocumentChunk) :
    Option Store × VectorEngine Store × (String → Option Store) :=
  if chunks.isEmpty then (none, e, disk)
  else
    let vs := build chunks
    (some vs, { e with vector_store := some vs },
      fun p => if p = e.save_path then some vs else disk p)

/-- src/ingestion.py VectorEngine.load_faiss_index: FAISS.load_local either
yields the index saved at save_path or raises; on success the store is
installed and True returned, on any exception False is returned and the
engine is left unchanged. -/
def load_faiss_index {Store : Type} (e : VectorEngine Store)
    (disk : String → Option Store) : Bool × VectorEngine Store :=
  match disk e.save_path with
  | some s => (true, { e with vector_store := some s })
  | none => (false, e)

/-- src/ingestion.py VectorEngine.semantic_search. similarity_search is the
FAISS collaborator and may raise (modelled with Except). When no store is
in memory the source calls load_faiss_index: the none branch below is its
False result (return the empty list), the some branch its True result
(store installed from disk, search it). Every failure path returns the
empty list; the total return type records that the method never raises. -/
def semantic_search {Store E C : Type}
    (similarity_search : Store → String → Nat → Except E (List C))
    (e : VectorEngine Store) (disk : String → Option Store)
    (query : String) (k : Nat) : List C × VectorEngine Store :=
  match e.vector_store with
  | some s =>
    match similarity_search s query k with
    | .ok res => (res, e)
    | .error _ => ([], e)
  | none =>
    match disk e.save_path with
    | none => ([], e)
    | some s =>
      match similarity_search s query k with
      | .ok res => (res, { e with vector_store := some s })
      | .error _ => ([], { e with vector_store := some s })

/-- src/logic.py: the context mapping returned by gather_context. Document
and web payloads are abstract. -/
structure Context (C W : Type) where
  route : String
  docs : List C
  web : List W

/-- src/logic.py gather_context, step 2: the strict gate. If the toggle is
off the route is forced to "internal" regardless of the classification. -/
def effectiveRoute (web_enabled : Bool) (route : String) : String :=
  if !web_enabled then "internal" else route

/-- src/logic.py execute_web_search: build the Tavily client with
max_results bound k and invoke it on the query; the provider call may
raise, and the function installs no handler. -/
def execute_web_search {E W : Type}
    (provider : String → Nat → Except E (List W))
    (query : String) (k : Nat) : Except E (List W) :=
  provider query k

/-- src/logic.py gather_context. classify_query stands for the router LLM
call (its value at the query is the classification); doc_search stands for
vector_engine.semantic_search, which never raises, so it is a plain
function; the web provider may raise and gather_context installs no
handler, so a provider error propagates to the caller (the Except result).
Document search runs for route "internal" or "hybrid"; web search runs
only when the toggle is on and the route is "web" or "hybrid". -/
def gather_context {E C W : Type} (classify_query : String → String)
    (doc_search : String → Nat → List C)
    (provider : String → Nat → Except E (List W))
    (query : String) (web_enabled : Bool) : Except E (Context C W) :=
  let route := effectiveRoute web_enabled (classify_query query)
  let docs :=
    if route == "internal" || route == "hybrid" then doc_search query 5 else []
  if web_enabled && (route == "web" || route == "hybrid") then
    match execute_web_search provider query 3 with
    | .ok w => .ok { route := route, docs := docs, web := w }
    | .error err => .error err
  else
    .ok { route := route, docs := docs, web := [] }

/-- The shapes a raw web result can take inside generate_hybrid_answer: a
mapping with an optional content entry (read with w.get and the empty
default), an object exposing page_content, or anything else passed through
str. -/
inductive WebItem where
  | dict (content : Option String)
  | obj (page_content : String)
  | fallback (s : String)

/-- The content extraction of generate_hybrid_answer: dictionary style
first, then attribute style, then the str fallback. -/
def extract_web_content : WebItem → String
  | .dict c => c.getD ""
  | .obj pc => pc
  | .fallback s => s

/-- The web evidence lines built by generate_hybrid_answer: one tagged line
per result whose extracted content is non-empty; results with missing or
empty content are skipped. -/
def web_lines (l : List WebItem) : List String :=
  l.filterMap (fun w =>
    let c := extract_web_content w
    if c = "" then none else some ("[Web] " ++ c))

/-- The WEB DATA section of the prompt assembled by generate_hybrid_answer:
the newline join of the web evidence lines. -/
def web_text (l : List WebItem) : String :=
  String.intercalate "\n" (web_lines l)

/-- Sample splitter for concrete instantiations: one piece holding the
whole text, none for empty text. -/
def sampleSplit (s : String) : List String :=
  if s = "" then [] else [s]

/-- Sample document for concrete instantiations. -/
def sampleDoc : Document :=
  { source_id := "doc-1", source_type := "text", title := "T", content := "hello" }

/-- Sample chunk for concrete instantiations. -/
def sampleChunk : DocumentChunk :=
  { parent_id := "doc-1", source_type := "text", title := "T", content := "hello"
    metadata := { chunk_index := 0, title := "T", source_type := "text" } }

end RagSearch

namespace RagSearch

/-- Any character of a collapseRunsAux result is either the inserted space
or a character of the input that is not in the collapsed class. -/
theorem mem_collapseRunsAux {p : Char → Bool} {c : Char} :
    ∀ {b : Bool} {l : List Char}, c ∈ collapseRunsAux p b l →
      c = ' ' ∨ (c ∈ l ∧ p c = false) := by
  intro b l
  induction l generalizing b with
  | nil => intro h; exact absurd h (by simp [collapseRunsAux])
  | cons d ds ih =>
    intro h
    rw [collapseRunsAux] at h
    by_cases hd : p d
    · rw [if_pos hd] at h
      cases b with
      | true =>
        rcases ih h with h' | ⟨hm, hp⟩
        · exact Or.inl h'
        · exact Or.inr ⟨List.mem_cons_of_mem d hm, hp⟩
      | false =>
        rcases List.mem_cons.mp h with h' | h'
        · exact Or.inl h'
        · rcases ih h' with h'' | ⟨hm, hp⟩
          · exact Or.inl h''
          · exact Or.inr ⟨List.mem_cons_of_mem d hm, hp⟩
    · rw [if_neg hd] at h
      rcases List.mem_cons.mp h with h' | h'
      · exact Or.inr ⟨h' ▸ List.mem_cons_self d ds, h' ▸ Bool.eq_false_iff.mpr hd⟩
      · rcases ih h' with h'' | ⟨hm, hp⟩
        · exact Or.inl h''
        · exact Or.inr ⟨List.mem_cons_of_mem d hm, hp⟩

/-- A list with no character of the collapsed class is left unchanged by
collapseRunsAux, whatever the run flag. -/
theorem collapseRunsAux_eq_self {p : Char → Bool} :
    ∀ {l : List Char}, (∀ c ∈ l, p c = false) → ∀ b, collapseRunsAux p b l = l := by
  intro l
  induction l with
  | nil => intro _ b; rfl
  | cons d ds ih =>
    intro h b
    rw [collapseRunsAux, if_neg (by simp [h d (List.mem_cons_self d ds)])]
    rw [ih (fun c hc => h c (List.mem_cons_of_mem d hc)) false]

/-- With the run flag set, the first emitted character is outside the
collapsed class. -/
theorem collapseRunsAux_true_head {p : Char → Bool} :
    ∀ {l : List Char} {c : Char} {cs : List Char},
      collapseRunsAux p true l = c :: cs → p c = false := by
  intro l
  induction l with
  | nil => intro c cs h; exact absurd h (by simp [collapseRunsAux])
  | cons d ds ih =>
    intro c cs h
    rw [collapseRunsAux] at h
    by_cases hd : p d
    · rw [if_pos hd] at h
      exact ih h
    · rw [if_neg hd] at h
      cases h
      exact Bool.eq_false_iff.mpr hd

/-- The result of collapseRunsAux never has two adjacent characters of the
collapsed class. -/
theorem noAdj_collapseRunsAux (p : Char → Bool) :
    ∀ (l : List Char) (b : Bool), NoAdj p (collapseRunsAux p b l) := by
  intro l
  induction l with
  | nil => intro b; exact List.chain'_nil
  | cons d ds ih =>
    intro b
    rw [collapseRunsAux]
    by_cases hd : p d
    · rw [if_pos hd]
      cases b with
      | true => exact ih true
      | false =>
        rw [if_neg Bool.false_ne_true, NoAdj, List.chain'_cons']
        refine ⟨?_, ih true⟩
        intro y hy
        cases hh : collapseRunsAux p true ds with
        | nil => rw [hh] at hy; exact absurd hy (by simp)
        | cons z zs =>
          rw [hh] at hy
          simp only [List.head?_cons, Option.mem_some_iff] at hy
          exact Or.inr (hy ▸ collapseRunsAux_true_head hh)
    · rw [if_neg hd]
      rw [NoAdj, List.chain'_cons']
      exact ⟨fun y _ => Or.inl (Bool.eq_false_iff.mpr hd), ih false⟩

/-- In a collapseRunsAux result, every character of the collapsed class is
the plain space. -/
theorem pOnlySpace_collapseRunsAux (p : Char → Bool) (l : List Char) (b : Bool) :
    pOnlySpace p (collapseRunsAux p b l) = true := by
  rw [pOnlySpace, List.all_eq_true]
  intro c hc
  rcases mem_collapseRunsAux hc with h | ⟨_, hp⟩
  · subst h; simp
  · simp [hp]

/-- A list whose class characters are single plain spaces with no two
adjacent is a fixed point of collapseRunsAux. -/
theorem collapseRunsAux_id (p : Char → Bool) :
    ∀ (l : List Char), NoAdj p l → pOnlySpace p l = true →
      collapseRunsAux p false l = l ∧
      ((∀ c ∈ l.head?, p c = false) → collapseRunsAux p true l = l) := by
  intro l
  induction l with
  | nil => intro _ _; exact ⟨rfl, fun _ => rfl⟩
  | cons d ds ih =>
    intro hadj honly
    rw [NoAdj, List.chain'_cons'] at hadj
    rw [pOnlySpace, List.all_cons, Bool.and_eq_true] at honly
    obtain ⟨hR, hadj'⟩ := hadj
    obtain ⟨hd1, honly'⟩ := honly
    have ihds := ih hadj' honly'
    by_cases hd : p d
    · have hsp : d = ' ' := by
        have hd1' : p d = false ∨ d = ' ' := by simpa using hd1
        rcases hd1' with h | h
        · rw [hd] at h; exact absurd h (by simp)
        · exact h
      have htrue : collapseRunsAux p true ds = ds := by
        refine ihds.2 ?_
        intro c hc
        rcases hR c hc with h | h
        · rw [hd] at h; exact absurd h (by simp)
        · exact h
      constructor
      · rw [collapseRunsAux, if_pos hd, if_neg Bool.false_ne_true, htrue, hsp]
      · intro hhead
        have : p d = false := hhead d (by simp)
        rw [hd] at this; exact absurd this (by simp)
    · constructor
      · rw [collapseRunsAux, if_neg hd, ihds.1]
      · intro _
        rw [collapseRunsAux, if_neg hd, ihds.1]

/-- Stripping only removes characters: membership is preserved. -/
theorem mem_pyStrip {c : Char} {l : List Char} (h : c ∈ pyStrip l) : c ∈ l := by
  rw [pyStrip, List.mem_reverse] at h
  have h1 := List.dropWhile_subset (l := (l.dropWhile pyIsSpace).reverse) pyIsSpace h
  rw [List.mem_reverse] at h1
  exact List.dropWhile_subset pyIsSpace h1

/-- The no-adjacent-class-characters property is stable under reversal,
the constraint being symmetric. -/
theorem noAdj_reverse {p : Char → Bool} {l : List Char} (h : NoAdj p l) :
    NoAdj p l.reverse := by
  rw [NoAdj, List.chain'_reverse]
  have hfl : (flip fun a b => p a = false ∨ p b = false) =
      fun a b => p a = false ∨ p b = false := by
    funext a b
    exact propext or_comm
  rw [hfl]
  exact h

/-- The no-adjacent-class-characters property is stable under dropWhile. -/
theorem noAdj_dropWhile {p q : Char → Bool} {l : List Char} (h : NoAdj p l) :
    NoAdj p (l.dropWhile q) :=
  List.Chain'.suffix h (List.dropWhile_suffix q)

/-- The no-adjacent-class-characters property is stable under stripping. -/
theorem noAdj_pyStrip {p : Char → Bool} {l : List Char} (h : NoAdj p l) :
    NoAdj p (pyStrip l) :=
  noAdj_reverse (noAdj_dropWhile (noAdj_reverse (noAdj_dropWhile h)))

/-- The head surviving a dropWhile does not satisfy the dropped class. -/
theorem head?_dropWhile {p : Char → Bool} {l : List Char} {c : Char}
    (h : (l.dropWhile p).head? = some c) : p c = false := by
  have := List.head?_dropWhile_not p l
  rw [h] at this
  exact this

/-- A stripped list does not start with whitespace. -/
theorem pyStrip_head {l : List Char} {c : Char}
    (h : (pyStrip l).head? = some c) : pyIsSpace c = false := by
  rw [pyStrip, List.head?_reverse] at h
  have hsuf := List.dropWhile_suffix (l := (l.dropWhile pyIsSpace).reverse) pyIsSpace
  obtain ⟨t, ht⟩ := hsuf
  have h2 : ((l.dropWhile pyIsSpace).reverse).getLast? = some c := by
    rw [← ht, List.getLast?_append, h]
    rfl
  rw [List.getLast?_reverse] at h2
  exact head?_dropWhile h2

/-- A stripped list does not end with whitespace. -/
theorem pyStrip_last {l : List Char} {c : Char}
    (h : (pyStrip l).getLast? = some c) : pyIsSpace c = false := by
  rw [pyStrip, List.getLast?_reverse] at h
  exact head?_dropWhile h

/-- dropWhile is the identity when the head is outside the class. -/
theorem dropWhile_eq_self_of_head {p : Char → Bool} {l : List Char}
    (h : ∀ c ∈ l.head?, p c = false) : l.dropWhile p = l := by
  cases l with
  | nil => rfl
  | cons d ds =>
    have : p d = false := h d (by simp)
    simp [List.dropWhile_cons, this]

/-- Stripping is the identity on a list with no whitespace at either
end. -/
theorem pyStrip_eq_self {l : List Char}
    (hh : ∀ c ∈ l.head?, pyIsSpace c = false)
    (hl : ∀ c ∈ l.getLast?, pyIsSpace c = false) : pyStrip l = l := by
  rw [pyStrip, dropWhile_eq_self_of_head hh]
  rw [dropWhile_eq_self_of_head (by
    intro c hc
    rw [List.head?_reverse] at hc
    exact hl c hc)]
  exact List.reverse_reverse l

/-- Membership form of the allAscii predicate. -/
theorem allAscii_mem {l : List Char} (h : allAscii l = true) {c : Char}
    (hc : c ∈ l) : isNonAscii c = false := by
  rw [allAscii, List.all_eq_true] at h
  simpa using h c hc

/-- semantic_search when nothing is in memory and the on-demand load
fails: the empty list is returned and the engine is unchanged. -/
theorem semantic_search_load_fail {Store E C : Type}
    (sim : Store → String → Nat → Except E (List C)) (e : VectorEngine Store)
    (disk : String → Option Store) (q : String) (k : Nat)
    (h : e.vector_store = none) (hd : disk e.save_path = none) :
    semantic_search sim e disk q k = ([], e) := by
  unfold semantic_search
  rw [h, hd]

/-- semantic_search when nothing is in memory and the on-demand load
succeeds: the loaded store is installed and searched. -/
theorem semantic_search_load_ok {Store E C : Type}
    (sim : Store → String → Nat → Except E (List C)) (e : VectorEngine Store)
    (disk : String → Option Store) (q : String) (k : Nat) (s : Store)
    (h : e.vector_store = none) (hd : disk e.save_path = some s) :
    semantic_search sim e disk q k =
      match sim s q k with
      | .ok res => (res, { e with vector_store := some s })
      | .error _ => ([], { e with vector_store := some s }) := by
  unfold semantic_search
  rw [h, hd]

end RagSearch

namespace RagSearch

/-- C1: for every query, calling gather_context with web_enabled false
returns a context whose effective route is "internal" and whose web
evidence list is empty, whatever route the Router classification returns
and whatever the web provider would do. -/
theorem gather_context_gate_forces_internal {E C W : Type}
    (classify_query : String → String) (doc_search : String → Nat → List C)
    (provider : String → Nat → Except E (List W)) (query : String) :
    gather_context classify_query doc_search provider query false =
      Except.ok { route := "internal", docs := doc_search query 5, web := [] } := rfl

/-- C2 counterexample: index_documents called on the empty chunk list
returns None and leaves the engine and the durable store untouched — a
silent no-op return, not a raised EmptyInputError (the source defines no
such error). -/
theorem index_documents_empty_returns_none_cex :
    index_documents (fun _ => (0 : Nat)) (VectorEngine.start Nat)
      (fun _ => none) [] = (none, VectorEngine.start Nat, fun _ => none) := rfl

/-- C2 amended: building with an empty chunk list is a silent no-op: the
call returns None, the in-memory store is not replaced and nothing is
written to the durable store. -/
theorem index_documents_empty_noop {Store : Type}
    (build : List DocumentChunk → Store) (e : VectorEngine Store)
    (disk : String → Option Store) :
    index_documents build e disk [] = (none, e, disk) := rfl

/-- C3: when no index is in memory, semantic_search attempts the on-demand
load (the resulting engine is exactly the one load_faiss_index produces);
if the load fails it returns the empty list with the engine unchanged; if
the load succeeds the loaded store is searched and a similarity-search
error also degrades to the empty list — the total return type never
carries an exception. -/
theorem semantic_search_graceful_degradation {Store E C : Type}
    (sim : Store → String → Nat → Except E (List C)) (e : VectorEngine Store)
    (disk : String → Option Store) (q : String) (k : Nat)
    (h : e.vector_store = none) :
    (semantic_search sim e disk q k).2 = (load_faiss_index e disk).2 ∧
    (disk e.save_path = none → semantic_search sim e disk q k = ([], e)) ∧
    (∀ s, disk e.save_path = some s →
      (semantic_search sim e disk q k).2 = { e with vector_store := some s } ∧
      (semantic_search sim e disk q k).1 =
        (match sim s q k with | .ok r => r | .error _ => [])) := by
  refine ⟨?_, fun hd => semantic_search_load_fail sim e disk q k h hd, ?_⟩
  · cases hd : disk e.save_path with
    | none =>
      rw [semantic_search_load_fail sim e disk q k h hd]
      unfold load_faiss_index
      rw [hd]
    | some s =>
      rw [semantic_search_load_ok sim e disk q k s h hd]
      unfold load_faiss_index
      rw [hd]
      cases sim s q k <;> rfl
  · intro s hd
    rw [semantic_search_load_ok sim e disk q k s h hd]
    cases sim s q k <;> exact ⟨rfl, rfl⟩

/-- C3 witness: a fresh engine with nothing on disk and an
always-raising similarity search still returns the empty list. -/
theorem semantic_search_graceful_degradation_witness :
    semantic_search (fun _ _ _ => (Except.error () : Except Unit (List Nat)))
      (VectorEngine.start Nat) (fun _ => none) "q" 5 =
      ([], VectorEngine.start Nat) :=
  (semantic_search_graceful_degradation _ _ _ _ _ rfl).2.1 rfl

/-- C4 counterexample: with the router answering "web", the toggle on and
a provider that raises, gather_context evaluates to the propagated
provider error, not to a context with an empty web list. -/
theorem gather_context_provider_error_cex :
    gather_context (fun _ => "web") (fun _ _ => ([] : List Nat))
      (fun _ _ => (Except.error () : Except Unit (List Nat))) "markets" true =
      Except.error () := rfl

/-- C4 amended: when the web provider call fails while gather_context
actually invokes it — the toggle is on and the effective route is "web"
or "hybrid" — the provider error propagates to the caller: gather_context
installs no handler around execute_web_search. (When the call is not
made, no provider failure can occur and the web list is empty.) -/
theorem gather_context_provider_error_propagates {E C W : Type}
    (classify_query : String → String) (doc_search : String → Nat → List C)
    (err : E) (query : String) (web_enabled : Bool)
    (hwb : web_enabled = true)
    (hr : classify_query query = "web" ∨ classify_query query = "hybrid") :
    gather_context classify_query doc_search
        (fun _ _ => (Except.error err : Except E (List W))) query web_enabled =
      Except.error err := by
  subst hwb
  rcases hr with h | h <;>
    simp [gather_context, effectiveRoute, execute_web_search, h]

/-- C4 witness: the propagation theorem applied at a concrete hybrid
route and provider failure. -/
theorem gather_context_provider_error_propagates_witness :
    gather_context (fun _ => "hybrid") (fun _ _ => ([] : List Nat))
      (fun _ _ => (Except.error "quota" : Except String (List Nat))) "q" true =
      Except.error "quota" :=
  gather_context_provider_error_propagates (fun _ => "hybrid")
    (fun _ _ => ([] : List Nat)) "quota" "q" true rfl (Or.inr rfl)

/-- C5: with a succeeding provider, gather_context populates document
evidence with doc_search at k = 5 exactly when the effective route is
"internal" or "hybrid", and web evidence with the provider result at
k = 3 exactly when the toggle is on and the effective route is "web" or
"hybrid"; the other list stays empty, and the returned route is the
gated one. -/
theorem gather_context_evidence_policy {E C W : Type}
    (classify_query : String → String) (doc_search : String → Nat → List C)
    (web_search : String → Nat → List W) (query : String) (web_enabled : Bool) :
    gather_context classify_query doc_search
        (fun s n => (Except.ok (web_search s n) : Except E (List W)))
        query web_enabled =
      Except.ok
        { route := effectiveRoute web_enabled (classify_query query)
          docs :=
            if effectiveRoute web_enabled (classify_query query) = "internal" ∨
                effectiveRoute web_enabled (classify_query query) = "hybrid"
            then doc_search query 5 else []
          web :=
            if web_enabled = true ∧
                (effectiveRoute web_enabled (classify_query query) = "web" ∨
                  effectiveRoute web_enabled (classify_query query) = "hybrid")
            then web_search query 3 else [] } := by
  cases web_enabled with
  | false => simp [effectiveRoute]; rfl
  | true =>
    simp only [effectiveRoute, Bool.not_true, Bool.false_eq_true, if_false]
    by_cases h1 : classify_query query = "internal" <;>
      by_cases h2 : classify_query query = "hybrid" <;>
      by_cases h3 : classify_query query = "web" <;>
      simp [gather_context, effectiveRoute, execute_web_search, h1, h2, h3]

/-- C6 counterexample: clean_text is not idempotent. On the input with a
non-ASCII letter before a space, the first pass leaves a double space
(the non-ASCII run is replaced by a second space after whitespace has
already been collapsed), and a second application collapses it. -/
theorem clean_text_not_idempotent_cex :
    clean_text (clean_text (['a', 'é', ' ', 'b'])) ≠
      clean_text (['a', 'é', ' ', 'b']) := by decide

/-- C6 amended: clean_text is idempotent on inputs made of ASCII
characters only; idempotence can fail when a non-ASCII run is adjacent to
whitespace. -/
theorem clean_text_idempotent_on_ascii (l : List Char) (h : allAscii l = true) :
    clean_text (clean_text l) = clean_text l := by
  have huasc : ∀ c ∈ collapseRuns pyIsSpace l, isNonAscii c = false := by
    intro c hc
    rcases mem_collapseRunsAux hc with h' | ⟨hm, _⟩
    · subst h'; rfl
    · exact allAscii_mem h hm
  have hstep2 : collapseRuns isNonAscii (collapseRuns pyIsSpace l) =
      collapseRuns pyIsSpace l :=
    collapseRunsAux_eq_self huasc false
  have hct : clean_text l = pyStrip (collapseRuns pyIsSpace l) := by
    rw [clean_text, hstep2]
  set u := collapseRuns pyIsSpace l with hu
  set t := pyStrip u with htdef
  have htasc : ∀ c ∈ t, isNonAscii c = false := fun c hc => huasc c (mem_pyStrip hc)
  have htadj : NoAdj pyIsSpace t :=
    noAdj_pyStrip (noAdj_collapseRunsAux pyIsSpace l false)
  have htonly : pOnlySpace pyIsSpace t = true := by
    rw [pOnlySpace, List.all_eq_true]
    intro c hc
    have hall := pOnlySpace_collapseRunsAux pyIsSpace l false
    rw [pOnlySpace, List.all_eq_true] at hall
    exact hall c (mem_pyStrip hc)
  have hws : collapseRuns pyIsSpace t = t :=
    (collapseRunsAux_id pyIsSpace t htadj htonly).1
  have hna : collapseRuns isNonAscii t = t := collapseRunsAux_eq_self htasc false
  have hstrip : pyStrip t = t := by
    refine pyStrip_eq_self ?_ ?_
    · intro c hc
      exact pyStrip_head hc
    · intro c hc
      exact pyStrip_last hc
  rw [hct, clean_text, hws, hna, hstrip]

/-- C6 witness: idempotence on a concrete ASCII input. -/
theorem clean_text_idempotent_on_ascii_witness :
    clean_text (clean_text (['a', ' ', 'b'])) = clean_text (['a', ' ', 'b']) :=
  clean_text_idempotent_on_ascii (['a', ' ', 'b']) (by decide)

/-- C7 counterexample: a control character — outside the printable-ASCII
range but inside 0x00-0x7F — survives clean_text unchanged, so clean_text
does not remove every character outside the printable-ASCII range. -/
theorem clean_text_keeps_control_char_cex :
    clean_text (['x', Char.ofNat 1]) = ['x', Char.ofNat 1] := by decide

/-- C7 amended: clean_text collapses whitespace runs, then replaces each
non-ASCII run by one space (which may recreate a double space), then
strips the ends: the output contains only ASCII characters (control
characters included — only code points above 0x7F are dropped), every
whitespace character left is the plain space, and there is no leading or
trailing whitespace; the function is a pure total function. -/
theorem clean_text_output_shape (l : List Char) :
    allAscii (clean_text l) = true ∧
    pOnlySpace pyIsSpace (clean_text l) = true ∧
    (clean_text l).head?.all (fun c => !pyIsSpace c) = true ∧
    (clean_text l).getLast?.all (fun c => !pyIsSpace c) = true := by
  refine ⟨?_, ?_, ?_, ?_⟩
  · rw [allAscii, List.all_eq_true]
    intro c hc
    rw [clean_text] at hc
    rcases mem_collapseRunsAux (mem_pyStrip hc) with h | ⟨_, hna⟩
    · subst h; rfl
    · simp [hna]
  · rw [pOnlySpace, List.all_eq_true]
    intro c hc
    rw [clean_text] at hc
    rcases mem_collapseRunsAux (mem_pyStrip hc) with h | ⟨hm, _⟩
    · subst h; simp
    · rcases mem_collapseRunsAux hm with h' | ⟨_, hws⟩
      · subst h'; simp
      · simp [hws]
  · cases hh : (clean_text l).head? with
    | none => rfl
    | some c =>
      rw [clean_text] at hh
      simp [Option.all_some, pyStrip_head hh]
  · cases hh : (clean_text l).getLast? with
    | none => rfl
    | some c =>
      rw [clean_text] at hh
      simp [Option.all_some, pyStrip_last hh]

/-- C8: provided the splitter returns only non-empty pieces, every chunk
built by chunk_documents has non-empty content; and for every parent
document, the chunk indices recorded in the metadata are exactly
0, 1, 2, ... restarting at 0 for that document, with parent_id equal to
the document's source_id. -/
theorem chunk_documents_nonempty_indexed (f : String → List String)
    (docs : List Document) (hne : ∀ s, ∀ t ∈ f s, t ≠ "") :
    (∀ c ∈ chunk_documents f docs, c.content ≠ "") ∧
    ∀ d ∈ docs,
      (chunksFor f d).map (fun c => c.metadata.chunk_index) =
        List.range (f d.content).length ∧
      ∀ c ∈ chunksFor f d, c.parent_id = d.source_id := by
  constructor
  · intro c hc
    rw [chunk_documents, List.mem_flatMap] at hc
    obtain ⟨d, _, hcd⟩ := hc
    rw [chunksFor, List.mem_map] at hcd
    obtain ⟨p, hp, rfl⟩ := hcd
    have hsnd : p.2 ∈ (f d.content).enum.map Prod.snd := List.mem_map_of_mem _ hp
    rw [List.enum_map_snd] at hsnd
    exact hne _ _ hsnd
  · intro d _
    constructor
    · rw [chunksFor, List.map_map]
      have hcomp : ((fun c : DocumentChunk => c.metadata.chunk_index) ∘
          fun p : Nat × String =>
          ({ parent_id := d.source_id, source_type := d.source_type,
             title := d.title, content := p.2,
             metadata := { chunk_index := p.1, title := d.title,
                           source_type := d.source_type } } : DocumentChunk)) =
          Prod.fst := rfl
      rw [hcomp, List.enum_map_fst]
    · intro c hc
      rw [chunksFor, List.mem_map] at hc
      obtain ⟨p, _, rfl⟩ := hc
      rfl

/-- C8 witness: the single-piece splitter on a concrete document yields
the index list of range 1. -/
theorem chunk_documents_nonempty_indexed_witness :
    (chunksFor sampleSplit sampleDoc).map (fun c => c.metadata.chunk_index) =
      List.range 1 := by
  have hne : ∀ s, ∀ t ∈ sampleSplit s, t ≠ "" := by
    intro s t ht h0
    by_cases hs : s = ""
    · simp [sampleSplit, hs] at ht
    · simp [sampleSplit, hs] at ht
      exact hs (ht ▸ h0)
  exact ((chunk_documents_nonempty_indexed sampleSplit [sampleDoc] hne).2
    sampleDoc (by simp)).1

/-- C9: a web result whose extracted content is missing or empty — after
the dict-style, attribute-style, str-fallback normalization — contributes
nothing to the WEB DATA section of the prompt. -/
theorem web_text_drops_empty_content (l1 l2 : List WebItem) (w : WebItem)
    (h : extract_web_content w = "") :
    web_text (l1 ++ w :: l2) = web_text (l1 ++ l2) := by
  unfold web_text web_lines
  rw [List.filterMap_append, List.filterMap_append, List.filterMap_cons]
  simp [h]

/-- C9 witness: a mapping-style result with no content entry is dropped
from the prompt section. -/
theorem web_text_drops_empty_content_witness :
    web_text [WebItem.dict none, WebItem.obj "x"] = web_text [WebItem.obj "x"] :=
  web_text_drops_empty_content [] [WebItem.obj "x"] (WebItem.dict none) rfl

/-- C10: on a non-empty chunk list, index_documents with an engine whose
save path is the constructor's "faiss_index" returns the built store,
installs it as the in-memory store, writes it at "faiss_index" on the
durable store (overwriting whatever was there), and touches no other
path. -/
theorem index_documents_builds_and_persists {Store : Type}
    (build : List DocumentChunk → Store) (e : VectorEngine Store)
    (disk : String → Option Store) (chunks : List DocumentChunk)
    (hpath : e.save_path = "faiss_index") (hne : chunks ≠ []) :
    (index_documents build e disk chunks).1 = some (build chunks) ∧
    (index_documents build e disk chunks).2.1.vector_store = some (build chunks) ∧
    (index_documents build e disk chunks).2.2 "faiss_index" = some (build chunks) ∧
    ∀ p, p ≠ "faiss_index" → (index_documents build e disk chunks).2.2 p = disk p := by
  have hempty : chunks.isEmpty = false := by
    cases chunks with
    | nil => exact absurd rfl hne
    | cons a l => rfl
  refine ⟨?_, ?_, ?_, ?_⟩ <;> simp [index_documents, hempty, hpath]
  intro p hp
  simp [hp]

/-- C10 witness: a concrete build on a fresh engine returns, installs and
persists the store at the fixed path. -/
theorem index_documents_builds_and_persists_witness :
    (index_documents (fun _ => (7 : Nat)) (VectorEngine.start Nat) (fun _ => none)
        [sampleChunk]).1 = some 7 ∧
    (index_documents (fun _ => (7 : Nat)) (VectorEngine.start Nat) (fun _ => none)
        [sampleChunk]).2.1.vector_store = some 7 ∧
    (index_documents (fun _ => (7 : Nat)) (VectorEngine.start Nat) (fun _ => none)
        [sampleChunk]).2.2 "faiss_index" = some 7 :=
  have h := index_documents_builds_and_persists (fun _ => (7 : Nat))
    (VectorEngine.start Nat) (fun _ => none) [sampleChunk] rfl (by simp)
  ⟨h.1, h.2.1, h.2.2.1⟩

end RagSearch
